import Mathlib

/-!
Verification of the multi-juicer Progress & Score Synchronization Engine.

The Go sources are shallowly embedded:
* `balancer/pkg/scoring` (score calculator, ranking engine, long-poll
  notifier) — `calculateScore`, `sortTeamsByScoreAndCalculatePositions`,
  `getLatestChallengeSolve`, `WaitForUpdatesNewerThan`;
* `progress-watchdog` (webhook handler, background sync, continue-code
  encoder) — the webhook handler of `main.go`, `createProgressUpdateJobs`,
  `GenerateContinueCode`, `createChallengeIdLookup`.

Go `time.Time` values are embedded as `Int` (nanoseconds since some epoch;
the zero `time.Time` maps to `0`, `t.After u` to `t > u`, `t.Before u` to
`t < u`, `==` to integer equality — all as total orders, faithful for the
wall-clock values produced by JSON unmarshalling).  Go `int` is embedded as
`Int`.  Kubernetes deployments are embedded as the projection onto the
fields the code reads: team label, the three progress annotations, and the
ready-replica count.  An annotation that is present but not valid JSON is
embedded as a distinguished `malformed` state, since the code only ever
branches on "empty string" / "unmarshal error" / "parsed list".
-/

namespace MultiJuicer

/-- One entry of the persisted solved-challenge annotation
(`ChallengeProgress` in scoring/score.go): a challenge key and the time it
was solved. -/
structure ChallengeProgress where
  Key : String
  SolvedAt : Int
  deriving Repr, DecidableEq

/-- One catalog entry (`bundle.JuiceShopChallenge`), reduced to the fields
the score calculator reads: challenge key and difficulty. -/
structure JuiceShopChallenge where
  Key : String
  Difficulty : Int
  deriving Repr, DecidableEq

/-- State of the `multi-juicer.owasp-juice.shop/challenges` annotation of a
deployment: missing / empty string, present but not valid JSON, or a parsed
JSON array of `ChallengeProgress`. -/
inductive ChallengeAnn where
  | absent : ChallengeAnn
  | malformed : ChallengeAnn
  | parsed : List ChallengeProgress → ChallengeAnn
  deriving Repr, DecidableEq

/-- Projection of a JuiceShop Kubernetes deployment onto the fields the
embedded code reads. -/
structure Deployment where
  team : String
  challengesAnn : ChallengeAnn
  continueCodeFindIt : String
  continueCodeFixIt : String
  readyReplicas : Nat
  deriving Repr, DecidableEq

/-- `TeamScore` of scoring/score.go. -/
structure TeamScore where
  Name : String
  Score : Int
  Position : Nat
  Challenges : List ChallengeProgress
  LastUpdate : Int
  InstanceReadiness : Bool
  deriving Repr, DecidableEq

/-- Lookup in the challenge map (`challengesMap[key]` on the Go map built by
`NewScoringServiceWithInitialScores`; embedded as an association list, first
match wins). -/
def lookupChallenge (challengesMap : List JuiceShopChallenge) (key : String) :
    Option JuiceShopChallenge :=
  challengesMap.find? (fun c => c.Key == key)

/-- The accumulating loop body of `calculateScore`: for each solved entry,
skip it when its key is not in the challenge map, otherwise add
`difficulty * 10` and append the entry. -/
def scoreLoop (challengesMap : List JuiceShopChallenge)
    (acc : Int × List ChallengeProgress) (challengeSolved : ChallengeProgress) :
    Int × List ChallengeProgress :=
  match lookupChallenge challengesMap challengeSolved.Key with
  | none => acc
  | some challenge => (acc.1 + challenge.Difficulty * 10, acc.2 ++ [challengeSolved])

/-- `calculateScore` of scoring/score.go.  `now` stands for `time.Now()`. -/
def calculateScore (d : Deployment) (challengesMap : List JuiceShopChallenge)
    (now : Int) : TeamScore :=
  match d.challengesAnn with
  | ChallengeAnn.absent =>
      { Name := d.team, Score := 0, Position := 0, Challenges := [],
        LastUpdate := now, InstanceReadiness := decide (0 < d.readyReplicas) }
  | ChallengeAnn.malformed =>
      { Name := d.team, Score := 0, Position := 0, Challenges := [],
        LastUpdate := now, InstanceReadiness := decide (0 < d.readyReplicas) }
  | ChallengeAnn.parsed solvedChallenges =>
      let scored := solvedChallenges.foldl (scoreLoop challengesMap) (0, [])
      let score := scored.1 +
        (if d.continueCodeFindIt ≠ "" then 50 else 0) +
        (if d.continueCodeFixIt ≠ "" then 50 else 0)
      { Name := d.team, Score := score, Position := 0, Challenges := scored.2,
        LastUpdate := now, InstanceReadiness := decide (0 < d.readyReplicas) }

/-- The per-entry score contribution the spec describes: catalog difficulty
times 10 for a recognized key, nothing for an unrecognized one. -/
def entryScore (challengesMap : List JuiceShopChallenge)
    (e : ChallengeProgress) : Int :=
  match lookupChallenge challengesMap e.Key with
  | some c => c.Difficulty * 10
  | none => 0

/-- Sum of the per-entry contributions over a solved-challenge list. -/
def recognizedScoreSum (challengesMap : List JuiceShopChallenge)
    (entries : List ChallengeProgress) : Int :=
  (entries.map (entryScore challengesMap)).sum

/-- `getLatestChallengeSolve` of scoring/score.go: the latest `SolvedAt` of
the list, starting from the zero time (embedded as `0`). -/
def getLatestChallengeSolve (challenges : List ChallengeProgress) : Int :=
  challenges.foldl
    (fun maxTime challenge =>
      if maxTime < challenge.SolvedAt then challenge.SolvedAt else maxTime) 0

/-- The comparison closure passed to `sort.Slice` in
`sortTeamsByScoreAndCalculatePositions`: on distinct scores, higher score
first; on equal scores, earlier latest solve first; on equal latest solves,
smaller name first. -/
def teamLess (a b : TeamScore) : Bool :=
  if a.Score = b.Score then
    if getLatestChallengeSolve a.Challenges = getLatestChallengeSolve b.Challenges then
      decide (a.Name < b.Name)
    else
      decide (getLatestChallengeSolve a.Challenges < getLatestChallengeSolve b.Challenges)
  else decide (b.Score < a.Score)

/-- The non-strict order induced by `teamLess`.  `sort.Slice` guarantees of
its output only that `teamLess out[j] out[i]` fails for `i < j`; sorting by
`teamLE` realizes exactly that guarantee. -/
def teamLE (a b : TeamScore) : Bool := !teamLess b a

/-- `teamLE` as a decidable proposition, for use with the sorting
algorithm. -/
def teamLEP (a b : TeamScore) : Prop := teamLE a b = true

instance : DecidableRel teamLEP :=
  fun a b => inferInstanceAs (Decidable (teamLE a b = true))

/-- The position-assignment loop of `sortTeamsByScoreAndCalculatePositions`:
`i` is the index of the head of the remaining list, `position` the position
assigned to the previous element, `prevScore` the previous element's score.
A new position `i + 1` is started exactly when the score strictly drops. -/
def assignPositionsAux : Nat → Nat → Int → List TeamScore → List TeamScore
  | _, _, _, [] => []
  | i, position, prevScore, t :: rest =>
      let pos := if t.Score < prevScore then i + 1 else position
      { t with Position := pos } :: assignPositionsAux (i + 1) pos t.Score rest

/-- `sortTeamsByScoreAndCalculatePositions` of scoring/score.go, on the list
of map values (the Go map iterates them in arbitrary order; determinism over
that order is proved below).  `sort.Slice` promises only some permutation in
which `teamLess out[j] out[i]` fails for `i < j`; it is embedded as
insertion sort by `teamLE`, which satisfies exactly that contract (and, as
proved below, the contract pins the output down uniquely whenever team names
are distinct).  The first element always gets position 1. -/
def sortTeamsByScoreAndCalculatePositions (teamScores : List TeamScore) :
    List TeamScore :=
  match List.insertionSort teamLEP teamScores with
  | [] => []
  | t :: rest => { t with Position := 1 } :: assignPositionsAux 1 1 t.Score rest

/-- The ranking key of a team: score, latest recorded solve time, name.
The ranking order depends on nothing else. -/
def rankKey (t : TeamScore) : Int × Int × String :=
  (t.Score, getLatestChallengeSolve t.Challenges, t.Name)

/-- Strict lexicographic ranking order on ranking keys: strictly higher
score first; then strictly earlier latest solve; then strictly smaller
name. -/
def keyLt : Int × Int × String → Int × Int × String → Prop
  | (s₁, t₁, n₁), (s₂, t₂, n₂) =>
      s₂ < s₁ ∨ (s₁ = s₂ ∧ (t₁ < t₂ ∨ (t₁ = t₂ ∧ n₁ < n₂)))

/-- `rankOrder a b` — team `a` ranks strictly before team `b`: higher
score, or equal score and earlier latest challenge-solve timestamp, or
equal score and timestamp and smaller team name. -/
def rankOrder (a b : TeamScore) : Prop := keyLt (rankKey a) (rankKey b)

/-- Position of the `k`-th element of a team list (0 for an out-of-range
index; every use below is guarded by a bound). -/
def positionAt (out : List TeamScore) (k : Nat) : Nat :=
  (out.map TeamScore.Position).getD k 0

/-- Score of the `k`-th element of a team list (0 for an out-of-range
index; every use below is guarded by a bound). -/
def scoreAt (out : List TeamScore) (k : Nat) : Int :=
  (out.map TeamScore.Score).getD k 0

/-- Relation between two ranked entries (left one earlier in the sequence):
scores are non-increasing, positions non-decreasing, and equal scores force
equal positions.  Transitive, which lets adjacent-link facts about the
position loop extend to arbitrary index pairs. -/
def posOrder (a b : TeamScore) : Prop :=
  b.Score ≤ a.Score ∧ a.Position ≤ b.Position ∧
    (a.Score = b.Score → a.Position = b.Position)

/-- Concrete example team (used by witnesses): score 30, latest solve 5. -/
def exTeamA : TeamScore :=
  { Name := "alice", Score := 30, Position := 0, Challenges := [⟨"k1", 5⟩],
    LastUpdate := 0, InstanceReadiness := true }

/-- Concrete example team (used by witnesses): score 30, latest solve 3. -/
def exTeamB : TeamScore :=
  { Name := "bob", Score := 30, Position := 0, Challenges := [⟨"k2", 3⟩],
    LastUpdate := 0, InstanceReadiness := true }

/-- Concrete example team (used by witnesses): score 20. -/
def exTeamC : TeamScore :=
  { Name := "carol", Score := 20, Position := 0, Challenges := [⟨"k3", 9⟩],
    LastUpdate := 0, InstanceReadiness := false }

/-- `ChallengeStatus` of the progress-watchdog: a challenge key and its
solved-at timestamp (kept as the string the instance reported). -/
structure ChallengeStatus where
  Key : String
  SolvedAt : String
  deriving Repr, DecidableEq

/-- State of the watchdog's view of the `challenges` annotation: missing,
present but not valid JSON, or a parsed array of `ChallengeStatus`. -/
inductive ChallengeStatusAnn where
  | absent : ChallengeStatusAnn
  | malformed : ChallengeStatusAnn
  | parsed : List ChallengeStatus → ChallengeStatusAnn
  deriving Repr, DecidableEq

/-- Projection of a JuiceShop deployment onto the fields the
progress-watchdog reads. -/
structure WatchdogDeployment where
  team : String
  challengesAnn : ChallengeStatusAnn
  continueCodeFindIt : String
  continueCodeFixIt : String
  readyReplicas : Nat
  deriving Repr, DecidableEq

/-- The challenge list the watchdog code works with after reading the
annotation: `json.Unmarshal` errors are logged and leave the
freshly-initialized empty slice in place (both in main.go's handler, which
starts from `"[]"`, and in `createProgressUpdateJobs`, which starts from a
nil slice), so absent and malformed annotations both act as the empty
list. -/
def annStatusList : ChallengeStatusAnn → List ChallengeStatus
  | ChallengeStatusAnn.parsed l => l
  | _ => []

/-- Go `strings.HasPrefix`, embedded over the character list. -/
def goHasPrefix (s p : String) : Prop :=
  s.toList.take p.toList.length = p.toList

instance (s p : String) : Decidable (goHasPrefix s p) :=
  inferInstanceAs (Decidable (s.toList.take p.toList.length = p.toList))

/-- Lexicographic comparison of character lists by code point, total. -/
def charListLE : List Char → List Char → Bool
  | [], _ => true
  | _ :: _, [] => false
  | x :: xs, y :: ys =>
      if x.toNat < y.toNat then true
      else if y.toNat < x.toNat then false
      else charListLE xs ys

/-- Comparison of two challenge-status entries by solved-at timestamp. -/
def solvedAtLE (a b : ChallengeStatus) : Prop :=
  charListLE a.SolvedAt.toList b.SolvedAt.toList = true

instance (a b : ChallengeStatus) : Decidable (solvedAtLE a b) :=
  inferInstanceAs (Decidable (charListLE a.SolvedAt.toList b.SolvedAt.toList = true))

/-- Modelled from the spec: the sort applied by `sort.Stable(challengeStatus)`
in main.go.  The `Less` method of `ChallengeStatuses` is declared in a file
that is not under src/ (only its callers are); spec §6 prescribes
"stable-sort by that timestamp", embedded as a stable insertion sort by the
solved-at string. -/
def sortChallengeStatuses (l : List ChallengeStatus) : List ChallengeStatus :=
  List.insertionSort solvedAtLE l

/-- The live progress snapshot fetched from an instance
(`ChallengeProgressWithCodes` of background-sync.go): solved challenges and
both bonus continue codes. -/
structure ChallengeProgressWithCodes where
  Challenges : List ChallengeStatus
  ContinueCodeFindIt : String
  ContinueCodeFixIt : String
  deriving Repr, DecidableEq

/-- Arguments of one `PersistProgress` call: the challenge list and both
bonus continue codes written back to the deployment annotations. -/
structure PersistCall where
  challenges : List ChallengeStatus
  continueCodeFindIt : String
  continueCodeFixIt : String
  deriving Repr, DecidableEq

/-- Observable outcome of one webhook request: the HTTP status written and
the `PersistProgress` call made, if any. -/
structure WebhookOutcome where
  status : Nat
  persisted : Option PersistCall
  deriving Repr, DecidableEq

/-- The webhook handler of main.go (`POST /team/\x7bteam\x7d/webhook`),
as a function of its external interactions: `deployment?` is the result of
the deployment Get (`none` = error), `challenge` and `issuedOn` come from
the decoded webhook body, and `fetch?` is the result of
`GetCurrentChallengeProgress` (`none` = error), consulted only on the
find-it/fix-it branches. -/
def webhookHandler (deployment? : Option WatchdogDeployment)
    (challenge : String) (issuedOn : String)
    (fetch? : Option ChallengeProgressWithCodes) : WebhookOutcome :=
  match deployment? with
  | none => { status := 500, persisted := none }
  | some deployment =>
      let continueCodeFindIt := deployment.continueCodeFindIt
      let continueCodeFixIt := deployment.continueCodeFixIt
      if goHasPrefix challenge "find-it-" then
        match fetch? with
        | none => { status := 500, persisted := none }
        | some currentProgress =>
            { status := 200,
              persisted := some
                { challenges := annStatusList deployment.challengesAnn,
                  continueCodeFindIt := currentProgress.ContinueCodeFindIt,
                  continueCodeFixIt := continueCodeFixIt } }
      else if goHasPrefix challenge "fix-it-" then
        match fetch? with
        | none => { status := 500, persisted := none }
        | some currentProgress =>
            { status := 200,
              persisted := some
                { challenges := annStatusList deployment.challengesAnn,
                  continueCodeFindIt := continueCodeFindIt,
                  continueCodeFixIt := currentProgress.ContinueCodeFixIt } }
      else
        let challengeStatus := annStatusList deployment.challengesAnn
        if challengeStatus.any (fun s => s.Key == challenge) then
          { status := 200, persisted := none }
        else
          { status := 200,
            persisted := some
              { challenges := sortChallengeStatuses
                  (challengeStatus ++ [⟨challenge, issuedOn⟩]),
                continueCodeFindIt := continueCodeFindIt,
                continueCodeFixIt := continueCodeFixIt } }

/-- The deployment state after one webhook request: a `PersistProgress`
call rewrites the three progress annotations, no call leaves the deployment
unchanged. -/
def annAfterWebhook (d : WatchdogDeployment) (challenge issuedOn : String)
    (fetch? : Option ChallengeProgressWithCodes) : WatchdogDeployment :=
  match (webhookHandler (some d) challenge issuedOn fetch?).persisted with
  | some call =>
      { d with challengesAnn := ChallengeStatusAnn.parsed call.challenges,
               continueCodeFindIt := call.continueCodeFindIt,
               continueCodeFixIt := call.continueCodeFixIt }
  | none => d

/-- `createChallengeIdLookup` of background-sync.go: challenge key `i` (in
challenges.json order, zero-based) is assigned id `i + 1`.  The Go map is
embedded as the association list of its insertions. -/
def createChallengeIdLookup (challengeKeys : List String) :
    List (String × Nat) :=
  challengeKeys.enum.map (fun p => (p.2, p.1 + 1))

/-- Lookup in an embedded Go map: the last insertion for the key wins
(`m[k] = v` overwrites), `none` when the key was never inserted. -/
def goMapFind (m : List (String × Nat)) (key : String) : Option Nat :=
  (m.reverse.find? (fun p => p.1 == key)).map Prod.snd

/-- Go map indexing `m[key]`: the stored value, or the zero value `0` when
the key is absent. -/
def goMapLookup (m : List (String × Nat)) (key : String) : Nat :=
  (goMapFind m key).getD 0

/-- The id list `GenerateContinueCode` of background-sync.go builds and
passes to the hashids encoder: one element per challenge entry, namely
`challengeIdLookup[challenge.Key]` (Go map indexing, so `0` for a key
absent from the lookup). -/
def GenerateContinueCodeIds (lookup : List (String × Nat))
    (challenges : List ChallengeStatus) : List Nat :=
  challenges.map (fun challenge => goMapLookup lookup challenge.Key)

/-- The id list as the spec sentence describes it (stated for comparison
with `GenerateContinueCodeIds`, which is the embedding of the source):
entries whose key is absent from the lookup are excluded, recognized keys
contribute exactly their id. -/
def specRecognizedIds (lookup : List (String × Nat))
    (challenges : List ChallengeStatus) : List Nat :=
  challenges.filterMap (fun challenge => goMapFind lookup challenge.Key)

/-- The three classifications of the progress comparator (spec §4.5). -/
inductive ProgressDifference where
  | ApplyCode : ProgressDifference
  | UpdateCache : ProgressDifference
  | NoOp : ProgressDifference
  deriving Repr, DecidableEq

/-- Keys of a solved-challenge list. -/
def keysOf (l : List ChallengeStatus) : List String :=
  l.map ChallengeStatus.Key

/-- Modelled from the spec: `CompareChallengeStates`, the progress
comparator.  Its defining file is not under src/ (only its caller
`workOnProgressUpdates` and the `ProgressDifference`-style outcome handling
are); spec §4.5 prescribes comparison by set membership of solved keys:
identical key sets → `NoOp`; the last-known progress containing a solved key
the live progress lacks → `ApplyCode`; otherwise (live progress has
additional keys) → `UpdateCache`. -/
def CompareChallengeStates
    (currentChallengeProgress lastChallengeProgress : List ChallengeStatus) :
    ProgressDifference :=
  if (∀ k ∈ keysOf currentChallengeProgress, k ∈ keysOf lastChallengeProgress) ∧
      (∀ k ∈ keysOf lastChallengeProgress, k ∈ keysOf currentChallengeProgress)
  then ProgressDifference.NoOp
  else if ∃ k ∈ keysOf lastChallengeProgress,
      k ∉ keysOf currentChallengeProgress
  then ProgressDifference.ApplyCode
  else ProgressDifference.UpdateCache

/-- One reconciliation job (`ProgressUpdateJobs` of background-sync.go). -/
structure ProgressUpdateJob where
  Team : String
  LastChallengeProgress : List ChallengeStatus
  deriving Repr, DecidableEq

/-- Outcome of one cycle of the scheduler loop `createProgressUpdateJobs`:
either the deployment List call failed and the code panicked, or the cycle
pushed the given jobs. -/
inductive SchedulerCycleOutcome where
  | panicked : SchedulerCycleOutcome
  | produced : List ProgressUpdateJob → SchedulerCycleOutcome
  deriving Repr, DecidableEq

/-- One cycle of `createProgressUpdateJobs` of background-sync.go, as a
function of the deployment List result: on error the code calls `panic`;
on success it enqueues one job per instance whose ready-replica count is
exactly 1, carrying the team label and the parsed challenge annotation
(nil slice on parse failure), and skips the rest. -/
def createProgressUpdateJobsCycle
    (listResult : Except String (List WatchdogDeployment)) :
    SchedulerCycleOutcome :=
  match listResult with
  | Except.error _ => SchedulerCycleOutcome.panicked
  | Except.ok juiceShops =>
      SchedulerCycleOutcome.produced
        (juiceShops.filterMap (fun shop =>
          if shop.readyReplicas = 1 then
            some { Team := shop.team,
                   LastChallengeProgress := annStatusList shop.challengesAnn }
          else none))

/-- A snapshot of the scoring service's mutable state as observed by one
read inside `WaitForUpdatesNewerThan`: `lastUpdate` and
`currentScoresSorted`. -/
structure ScoreSnapshot where
  lastUpdate : Int
  scoresSorted : List TeamScore
  deriving Repr, DecidableEq

/-- One firing of the `select` in `WaitForUpdatesNewerThan`: the 50 ms
ticker, the 25 s timeout timer (which the runtime fires only once the
ceiling has elapsed), or context cancellation. -/
inductive WaitEvent where
  | tick : WaitEvent
  | timeout : WaitEvent
  | canceled : WaitEvent
  deriving Repr, DecidableEq

/-- Result of running the wait loop against a finite schedule of select
firings: the function returned the given value, or the schedule was
exhausted with the loop still blocked in `select`. -/
inductive WaitOutcome where
  | returned : Option (List TeamScore) → WaitOutcome
  | stillWaiting : WaitOutcome
  deriving Repr, DecidableEq

/-- The `for/select` loop of `WaitForUpdatesNewerThan`: `states k` is the
snapshot read at the `k`-th poll, `events` the sequence of select-arm
firings. -/
def waitLoop (states : Nat → ScoreSnapshot) (lastSeenUpdate : Int) :
    Nat → List WaitEvent → WaitOutcome
  | _, [] => WaitOutcome.stillWaiting
  | k, e :: rest =>
      match e with
      | WaitEvent.tick =>
          if (states k).lastUpdate > lastSeenUpdate then
            WaitOutcome.returned (some (states k).scoresSorted)
          else waitLoop states lastSeenUpdate (k + 1) rest
      | WaitEvent.timeout => WaitOutcome.returned none
      | WaitEvent.canceled => WaitOutcome.returned none

/-- `WaitForUpdatesNewerThan` of scoring/score.go: immediate return when the
cache is already newer than the caller's watermark, otherwise the polling
loop above. -/
def WaitForUpdatesNewerThan (states : Nat → ScoreSnapshot)
    (lastSeenUpdate : Int) (events : List WaitEvent) : WaitOutcome :=
  if (states 0).lastUpdate > lastSeenUpdate then
    WaitOutcome.returned (some (states 0).scoresSorted)
  else waitLoop states lastSeenUpdate 1 events

lemma scoreLoop_foldl_fst (challengesMap : List JuiceShopChallenge)
    (entries : List ChallengeProgress) (s : Int) (cs : List ChallengeProgress) :
    (entries.foldl (scoreLoop challengesMap) (s, cs)).1 =
      s + recognizedScoreSum challengesMap entries := by
  induction entries generalizing s cs with
  | nil => simp [recognizedScoreSum]
  | cons e rest ih =>
      cases h : lookupChallenge challengesMap e.Key with
      | none =>
          have hstep : scoreLoop challengesMap (s, cs) e = (s, cs) := by
            simp [scoreLoop, h]
          have he : entryScore challengesMap e = 0 := by simp [entryScore, h]
          rw [List.foldl_cons, hstep, ih]
          simp only [recognizedScoreSum, List.map_cons, List.sum_cons, he]
          ring
      | some c =>
          have hstep : scoreLoop challengesMap (s, cs) e =
              (s + c.Difficulty * 10, cs ++ [e]) := by
            simp [scoreLoop, h]
          have he : entryScore challengesMap e = c.Difficulty * 10 := by
            simp [entryScore, h]
          rw [List.foldl_cons, hstep, ih]
          simp only [recognizedScoreSum, List.map_cons, List.sum_cons, he]
          ring

/-- C1 — For every instance whose solved-challenge annotation parses, the
computed team score equals the sum of (catalog difficulty × 10) over solved
entries whose key is found in the catalog (unrecognized keys contribute
nothing), plus a flat 50 if the FindIt continue-code annotation is a
non-empty string and another flat 50 if the FixIt continue-code annotation
is a non-empty string. -/
theorem calculateScore_parsed_sum (d : Deployment)
    (challengesMap : List JuiceShopChallenge) (now : Int)
    (l : List ChallengeProgress) (h : d.challengesAnn = ChallengeAnn.parsed l) :
    (calculateScore d challengesMap now).Score =
      recognizedScoreSum challengesMap l +
      (if d.continueCodeFindIt ≠ "" then 50 else 0) +
      (if d.continueCodeFixIt ≠ "" then 50 else 0) := by
  unfold calculateScore
  rw [h]
  simp only
  rw [scoreLoop_foldl_fst]
  ring

/-- C1 witness: with a catalog mapping challenge "X10" to difficulty 3, an
instance whose annotation lists only that challenge scores 30 when no bonus
code is present, and 80 when the FindIt bonus code is present. -/
theorem calculateScore_parsed_sum_witness :
    ({ team := "t1", challengesAnn := ChallengeAnn.parsed [⟨"X10", 5⟩],
       continueCodeFindIt := "", continueCodeFixIt := "",
       readyReplicas := 1 } : Deployment).challengesAnn =
        ChallengeAnn.parsed [⟨"X10", 5⟩] ∧
    (calculateScore
      { team := "t1", challengesAnn := ChallengeAnn.parsed [⟨"X10", 5⟩],
        continueCodeFindIt := "", continueCodeFixIt := "", readyReplicas := 1 }
      [⟨"X10", 3⟩] 0).Score =
      recognizedScoreSum [⟨"X10", 3⟩] [⟨"X10", 5⟩] +
      (if ("" : String) ≠ "" then 50 else 0) +
      (if ("" : String) ≠ "" then 50 else 0) ∧
    (calculateScore
      { team := "t1", challengesAnn := ChallengeAnn.parsed [⟨"X10", 5⟩],
        continueCodeFindIt := "", continueCodeFixIt := "", readyReplicas := 1 }
      [⟨"X10", 3⟩] 0).Score = 30 ∧
    (calculateScore
      { team := "t1", challengesAnn := ChallengeAnn.parsed [⟨"X10", 5⟩],
        continueCodeFindIt := "code", continueCodeFixIt := "", readyReplicas := 1 }
      [⟨"X10", 3⟩] 0).Score = 80 := by
  refine ⟨rfl, ?_, by decide, by decide⟩
  exact calculateScore_parsed_sum _ [⟨"X10", 3⟩] 0 [⟨"X10", 5⟩] rfl

/-- C7 — For every instance whose solved-challenge annotation is absent or
fails to parse as JSON, the score calculator returns a `TeamScore` with
score 0 and an empty challenge list, and still reports the readiness flag
from the live ready-replica count (ready iff ready replicas > 0). -/
theorem calculateScore_unparsable (d : Deployment)
    (challengesMap : List JuiceShopChallenge) (now : Int)
    (h : d.challengesAnn = ChallengeAnn.absent ∨
         d.challengesAnn = ChallengeAnn.malformed) :
    (calculateScore d challengesMap now).Score = 0 ∧
    (calculateScore d challengesMap now).Challenges = [] ∧
    ((calculateScore d challengesMap now).InstanceReadiness = true ↔
      0 < d.readyReplicas) ∧
    (calculateScore d challengesMap now).Name = d.team := by
  rcases h with h | h <;> · unfold calculateScore; rw [h]; simp

/-- C7 witness: a deployment with a malformed annotation and one ready
replica gets score 0, no challenges, and is reported ready. -/
theorem calculateScore_unparsable_witness :
    (calculateScore
      { team := "t2", challengesAnn := ChallengeAnn.malformed,
        continueCodeFindIt := "abc", continueCodeFixIt := "", readyReplicas := 1 }
      [] 7).Score = 0 ∧
    (calculateScore
      { team := "t2", challengesAnn := ChallengeAnn.malformed,
        continueCodeFindIt := "abc", continueCodeFixIt := "", readyReplicas := 1 }
      [] 7).Challenges = [] ∧
    ((calculateScore
      { team := "t2", challengesAnn := ChallengeAnn.malformed,
        continueCodeFindIt := "abc", continueCodeFixIt := "", readyReplicas := 1 }
      [] 7).InstanceReadiness = true ↔ (0 : Nat) < 1) := by
  have h := calculateScore_unparsable
    { team := "t2", challengesAnn := ChallengeAnn.malformed,
      continueCodeFindIt := "abc", continueCodeFixIt := "", readyReplicas := 1 }
    [] 7 (Or.inr rfl)
  exact ⟨h.1, h.2.1, h.2.2.1⟩

lemma keyLt_irrefl (k : Int × Int × String) : ¬ keyLt k k := by
  obtain ⟨s, t, n⟩ := k
  simp [keyLt]

lemma keyLt_trans {k₁ k₂ k₃ : Int × Int × String} :
    keyLt k₁ k₂ → keyLt k₂ k₃ → keyLt k₁ k₃ := by
  obtain ⟨s₁, t₁, n₁⟩ := k₁
  obtain ⟨s₂, t₂, n₂⟩ := k₂
  obtain ⟨s₃, t₃, n₃⟩ := k₃
  simp only [keyLt]
  rintro (h | ⟨hs, ht | ⟨ht, hn⟩⟩) (h2 | ⟨hs2, ht2 | ⟨ht2, hn2⟩⟩)
  · exact Or.inl (by omega)
  · exact Or.inl (by omega)
  · exact Or.inl (by omega)
  · exact Or.inl (by omega)
  · exact Or.inr ⟨by omega, Or.inl (by omega)⟩
  · exact Or.inr ⟨by omega, Or.inl (by omega)⟩
  · exact Or.inl (by omega)
  · exact Or.inr ⟨by omega, Or.inl (by omega)⟩
  · exact Or.inr ⟨by omega, Or.inr ⟨by omega, hn.trans hn2⟩⟩

lemma keyLt_trichotomy (k₁ k₂ : Int × Int × String) :
    keyLt k₁ k₂ ∨ keyLt k₂ k₁ ∨ k₁ = k₂ := by
  obtain ⟨s₁, t₁, n₁⟩ := k₁
  obtain ⟨s₂, t₂, n₂⟩ := k₂
  simp only [keyLt, Prod.mk.injEq]
  rcases lt_trichotomy s₂ s₁ with hs | hs | hs
  · exact Or.inl (Or.inl hs)
  · rcases lt_trichotomy t₁ t₂ with ht | ht | ht
    · exact Or.inl (Or.inr ⟨hs.symm, Or.inl ht⟩)
    · rcases lt_trichotomy n₁ n₂ with hn | hn | hn
      · exact Or.inl (Or.inr ⟨hs.symm, Or.inr ⟨ht, hn⟩⟩)
      · exact Or.inr (Or.inr ⟨hs.symm, ht, hn⟩)
      · exact Or.inr (Or.inl (Or.inr ⟨hs, Or.inr ⟨ht.symm, hn⟩⟩))
    · exact Or.inr (Or.inl (Or.inr ⟨hs, Or.inl ht⟩))
  · exact Or.inr (Or.inl (Or.inl hs))

lemma rankOrder_def (a b : TeamScore) :
    rankOrder a b ↔
      (b.Score < a.Score ∨
        (a.Score = b.Score ∧
          (getLatestChallengeSolve a.Challenges < getLatestChallengeSolve b.Challenges ∨
            (getLatestChallengeSolve a.Challenges = getLatestChallengeSolve b.Challenges ∧
              a.Name < b.Name)))) := Iff.rfl

lemma teamLess_iff (a b : TeamScore) : teamLess a b = true ↔ rankOrder a b := by
  rw [rankOrder_def]
  unfold teamLess
  split_ifs with h1 h2 <;> simp [*]

lemma rankOrder_asymm {a b : TeamScore} (h : rankOrder a b) : ¬ rankOrder b a :=
  fun h2 => keyLt_irrefl (rankKey a) (keyLt_trans h h2)

lemma teamLE_iff (a b : TeamScore) : teamLE a b = true ↔ ¬ rankOrder b a := by
  rw [← teamLess_iff]
  unfold teamLE
  cases h : teamLess b a <;> simp [h]

lemma teamLE_total (a b : TeamScore) : (teamLE a b || teamLE b a) = true := by
  rcases keyLt_trichotomy (rankKey a) (rankKey b) with h | h | h
  · have : teamLE a b = true := (teamLE_iff a b).mpr (rankOrder_asymm h)
    simp [this]
  · have : teamLE b a = true := (teamLE_iff b a).mpr (rankOrder_asymm h)
    simp [this]
  · have : teamLE a b = true := by
      refine (teamLE_iff a b).mpr ?_
      intro h2
      have h2' : keyLt (rankKey b) (rankKey a) := h2
      rw [h] at h2'
      exact keyLt_irrefl _ h2'
    simp [this]

lemma teamLE_trans (a b c : TeamScore) :
    teamLE a b = true → teamLE b c = true → teamLE a c = true := by
  intro h1 h2
  have n1 : ¬ rankOrder b a := (teamLE_iff a b).mp h1
  have n2 : ¬ rankOrder c b := (teamLE_iff b c).mp h2
  refine (teamLE_iff a c).mpr ?_
  intro hr
  rcases keyLt_trichotomy (rankKey c) (rankKey b) with hcb | hbc | he
  · exact n2 hcb
  · exact n1 (keyLt_trans hbc hr)
  · have hr' : keyLt (rankKey c) (rankKey a) := hr
    rw [he] at hr'
    exact n1 hr'

lemma sortedTeams_pairwise_le (l : List TeamScore) :
    List.Pairwise (fun a b => teamLE a b = true)
      (List.insertionSort teamLEP l) := by
  haveI : IsTotal TeamScore teamLEP :=
    ⟨fun a b => by simpa [teamLEP] using teamLE_total a b⟩
  haveI : IsTrans TeamScore teamLEP :=
    ⟨fun a b c hab hbc => teamLE_trans a b c hab hbc⟩
  exact List.sorted_insertionSort teamLEP l

lemma sorted_pairwise_rankOrder (l : List TeamScore)
    (h : (l.map TeamScore.Name).Nodup) :
    List.Pairwise rankOrder (List.insertionSort teamLEP l) := by
  have hle := sortedTeams_pairwise_le l
  have hname : List.Pairwise (fun a b : TeamScore => a.Name ≠ b.Name) l :=
    List.pairwise_map.mp h
  have hname2 : List.Pairwise (fun a b : TeamScore => a.Name ≠ b.Name)
      (List.insertionSort teamLEP l) :=
    ((List.perm_insertionSort teamLEP l).pairwise_iff (fun hxy => hxy.symm)).mpr hname
  refine (hle.and hname2).imp ?_
  intro a b hab
  obtain ⟨h1, h2⟩ := hab
  have hn := (teamLE_iff a b).mp h1
  rcases keyLt_trichotomy (rankKey a) (rankKey b) with hlt | hlt | he
  · exact hlt
  · exact absurd hlt hn
  · exact absurd (congrArg (fun k => k.2.2) he) h2

lemma assignPositionsAux_map_rankKey (i p : Nat) (prev : Int)
    (l : List TeamScore) :
    (assignPositionsAux i p prev l).map rankKey = l.map rankKey := by
  induction l generalizing i p prev with
  | nil => rfl
  | cons t rest ih => simp [assignPositionsAux, rankKey, ih]

lemma assignPositionsAux_map_score (i p : Nat) (prev : Int)
    (l : List TeamScore) :
    (assignPositionsAux i p prev l).map TeamScore.Score =
      l.map TeamScore.Score := by
  induction l generalizing i p prev with
  | nil => rfl
  | cons t rest ih => simp [assignPositionsAux, ih]

lemma sortTeams_map_rankKey (l : List TeamScore) :
    (sortTeamsByScoreAndCalculatePositions l).map rankKey =
      (List.insertionSort teamLEP l).map rankKey := by
  unfold sortTeamsByScoreAndCalculatePositions
  cases hm : List.insertionSort teamLEP l with
  | nil => simp
  | cons t rest => simp [assignPositionsAux_map_rankKey, rankKey]

/-- C2 — The ranking function orders teams by strictly higher score first,
then (on equal score) by strictly earlier latest challenge-solve timestamp,
then by ascending name; the output consists of exactly the input teams; and
on any two enumerations of the same score map (any two permutations of the
same team list with distinct names) the two runs produce the same
sequence. -/
theorem ranking_deterministic_total_order (l₁ l₂ : List TeamScore)
    (hnodup : (l₁.map TeamScore.Name).Nodup) (hperm : l₁.Perm l₂) :
    ((sortTeamsByScoreAndCalculatePositions l₁).map rankKey).Perm
        (l₁.map rankKey) ∧
    List.Pairwise rankOrder (sortTeamsByScoreAndCalculatePositions l₁) ∧
    sortTeamsByScoreAndCalculatePositions l₁ =
      sortTeamsByScoreAndCalculatePositions l₂ := by
  have hp1 : List.Pairwise rankOrder (List.insertionSort teamLEP l₁) :=
    sorted_pairwise_rankOrder l₁ hnodup
  have hnodup₂ : (l₂.map TeamScore.Name).Nodup :=
    ((hperm.map TeamScore.Name).nodup_iff).mp hnodup
  have hp2 : List.Pairwise rankOrder (List.insertionSort teamLEP l₂) :=
    sorted_pairwise_rankOrder l₂ hnodup₂
  refine ⟨?_, ?_, ?_⟩
  · rw [sortTeams_map_rankKey]
    exact (List.perm_insertionSort teamLEP l₁).map rankKey
  · have hkey : List.Pairwise keyLt
        ((sortTeamsByScoreAndCalculatePositions l₁).map rankKey) := by
      rw [sortTeams_map_rankKey]
      exact List.pairwise_map.mpr hp1
    have hout := List.pairwise_map.mp hkey
    exact hout.imp (fun hab => hab)
  · have hsorted_eq : List.insertionSort teamLEP l₁ = List.insertionSort teamLEP l₂ := by
      haveI : IsAntisymm TeamScore rankOrder :=
        ⟨fun a b h h2 => absurd h2 (rankOrder_asymm h)⟩
      exact List.eq_of_perm_of_sorted
        ((List.perm_insertionSort teamLEP l₁).trans
          (hperm.trans (List.perm_insertionSort teamLEP l₂).symm))
        hp1 hp2
    unfold sortTeamsByScoreAndCalculatePositions
    rw [hsorted_eq]

/-- C2 witness: three concrete teams (two tied on score 30 with different
latest-solve times), ranked from two different enumeration orders of the
same map. -/
theorem ranking_deterministic_total_order_witness :
    ([exTeamA, exTeamB, exTeamC].map TeamScore.Name).Nodup ∧
    ([exTeamA, exTeamB, exTeamC] : List TeamScore).Perm
      [exTeamC, exTeamA, exTeamB] ∧
    (((sortTeamsByScoreAndCalculatePositions [exTeamA, exTeamB, exTeamC]).map
        rankKey).Perm ([exTeamA, exTeamB, exTeamC].map rankKey) ∧
      List.Pairwise rankOrder
        (sortTeamsByScoreAndCalculatePositions [exTeamA, exTeamB, exTeamC]) ∧
      sortTeamsByScoreAndCalculatePositions [exTeamA, exTeamB, exTeamC] =
        sortTeamsByScoreAndCalculatePositions [exTeamC, exTeamA, exTeamB]) :=
  ⟨by decide, by decide,
    ranking_deterministic_total_order [exTeamA, exTeamB, exTeamC]
      [exTeamC, exTeamA, exTeamB] (by decide) (by decide)⟩

lemma positionAt_cons_zero (x : TeamScore) (xs : List TeamScore) :
    positionAt (x :: xs) 0 = x.Position := rfl

lemma positionAt_cons_succ (x : TeamScore) (xs : List TeamScore) (k : Nat) :
    positionAt (x :: xs) (k + 1) = positionAt xs k := rfl

lemma scoreAt_cons_zero (x : TeamScore) (xs : List TeamScore) :
    scoreAt (x :: xs) 0 = x.Score := rfl

lemma scoreAt_cons_succ (x : TeamScore) (xs : List TeamScore) (k : Nat) :
    scoreAt (x :: xs) (k + 1) = scoreAt xs k := rfl

lemma scoreAt_assignPositionsAux (i p : Nat) (prev : Int) (l : List TeamScore)
    (k : Nat) :
    scoreAt (assignPositionsAux i p prev l) k = scoreAt l k := by
  unfold scoreAt
  rw [assignPositionsAux_map_score]

lemma assignPositionsAux_length (i p : Nat) (prev : Int) (l : List TeamScore) :
    (assignPositionsAux i p prev l).length = l.length := by
  induction l generalizing i p prev with
  | nil => rfl
  | cons t rest ih => simp [assignPositionsAux, ih]

lemma assignPositionsAux_cons (i p : Nat) (prev : Int) (t : TeamScore)
    (rest : List TeamScore) :
    assignPositionsAux i p prev (t :: rest) =
      { t with Position := if t.Score < prev then i + 1 else p } ::
        assignPositionsAux (i + 1) (if t.Score < prev then i + 1 else p)
          t.Score rest := rfl

lemma assignAux_positionAt_zero (i p : Nat) (prev : Int) (t : TeamScore)
    (rest : List TeamScore) :
    positionAt (assignPositionsAux i p prev (t :: rest)) 0 =
      if t.Score < prev then i + 1 else p := by
  rw [assignPositionsAux_cons, positionAt_cons_zero]

lemma assignAux_positionAt_succ (l : List TeamScore) (i p : Nat) (prev : Int)
    (k : Nat) (hk : k + 1 < l.length) :
    positionAt (assignPositionsAux i p prev l) (k + 1) =
      if scoreAt l (k + 1) < scoreAt l k then i + k + 2
      else positionAt (assignPositionsAux i p prev l) k := by
  induction l generalizing i p prev k with
  | nil => simp at hk
  | cons t rest ih =>
      cases k with
      | zero =>
          cases rest with
          | nil =>
              exfalso
              simp at hk
          | cons u rest2 =>
              rw [assignPositionsAux_cons]
              simp only [positionAt_cons_succ, positionAt_cons_zero,
                scoreAt_cons_succ, scoreAt_cons_zero]
              rw [assignAux_positionAt_zero]
      | succ k2 =>
          have hk2 : k2 + 1 < rest.length := by
            simp only [List.length_cons] at hk
            omega
          rw [assignPositionsAux_cons]
          simp only [positionAt_cons_succ, scoreAt_cons_succ]
          rw [ih (i + 1) (if t.Score < prev then i + 1 else p) t.Score k2 hk2]
          split_ifs <;> omega

lemma teamLE_score {a b : TeamScore} (h : teamLE a b = true) :
    b.Score ≤ a.Score := by
  have hn := (teamLE_iff a b).mp h
  by_contra hlt
  push_neg at hlt
  exact hn ((rankOrder_def b a).mpr (Or.inl hlt))

lemma chain_scores_transport (t t' : TeamScore) (hsc : t'.Score = t.Score)
    {rest : List TeamScore}
    (h : List.Chain' (fun a b => b.Score ≤ a.Score) (t :: rest)) :
    List.Chain' (fun a b => b.Score ≤ a.Score) (t' :: rest) := by
  cases rest with
  | nil => exact List.chain'_singleton t'
  | cons u rest2 =>
      rw [List.chain'_cons] at h ⊢
      exact ⟨hsc.symm ▸ h.1, h.2⟩

lemma chain_assignPositionsAux (l : List TeamScore) :
    ∀ (i p : Nat) (x : TeamScore),
      x.Position = p → p ≤ i →
      List.Chain' (fun a b => b.Score ≤ a.Score) (x :: l) →
      List.Chain' posOrder (x :: assignPositionsAux i p x.Score l) := by
  induction l with
  | nil =>
      intro i p x _ _ _
      exact List.chain'_singleton x
  | cons t rest ih =>
      intro i p x hxp hpi hchain
      rw [List.chain'_cons] at hchain
      obtain ⟨hts, htail⟩ := hchain
      rw [assignPositionsAux_cons, List.chain'_cons]
      constructor
      · refine ⟨hts, ?_, ?_⟩
        · show x.Position ≤ if t.Score < x.Score then i + 1 else p
          split_ifs with hc <;> omega
        · intro heq
          have heq' : x.Score = t.Score := heq
          show x.Position = if t.Score < x.Score then i + 1 else p
          have hc : ¬ t.Score < x.Score := by omega
          rw [if_neg hc, hxp]
      · have hchain' : List.Chain' (fun a b => b.Score ≤ a.Score)
            (({ t with Position := if t.Score < x.Score then i + 1 else p } :
              TeamScore) :: rest) :=
          chain_scores_transport t
            { t with Position := if t.Score < x.Score then i + 1 else p }
            rfl htail
        exact ih (i + 1) (if t.Score < x.Score then i + 1 else p)
          { t with Position := if t.Score < x.Score then i + 1 else p } rfl
          (by split_ifs with hc <;> omega) hchain'

lemma sortTeams_eq_nil (l : List TeamScore) (hm : List.insertionSort teamLEP l = []) :
    sortTeamsByScoreAndCalculatePositions l = [] := by
  unfold sortTeamsByScoreAndCalculatePositions
  rw [hm]

lemma sortTeams_eq_cons (l : List TeamScore) (t : TeamScore)
    (rest : List TeamScore) (hm : List.insertionSort teamLEP l = t :: rest) :
    sortTeamsByScoreAndCalculatePositions l =
      { t with Position := 1 } :: assignPositionsAux 1 1 t.Score rest := by
  unfold sortTeamsByScoreAndCalculatePositions
  rw [hm]

lemma sortTeams_chain_posOrder (l : List TeamScore) :
    List.Chain' posOrder (sortTeamsByScoreAndCalculatePositions l) := by
  cases hm : List.insertionSort teamLEP l with
  | nil =>
      rw [sortTeams_eq_nil l hm]
      exact List.chain'_nil
  | cons t rest =>
      rw [sortTeams_eq_cons l t rest hm]
      have hsorted : List.Pairwise (fun a b => teamLE a b = true) (t :: rest) := by
        rw [← hm]
        exact sortedTeams_pairwise_le l
      have hscores : List.Chain' (fun a b : TeamScore => b.Score ≤ a.Score)
          (t :: rest) :=
        (hsorted.imp fun hab => teamLE_score hab).chain'
      exact chain_assignPositionsAux rest 1 1 { t with Position := 1 } rfl
        (le_refl 1) (chain_scores_transport t { t with Position := 1 } rfl hscores)

lemma positionAt_eq_get (out : List TeamScore) (k : Nat) (h : k < out.length) :
    positionAt out k = (out.get ⟨k, h⟩).Position := by
  unfold positionAt
  rw [List.getD_eq_getElem (List.map TeamScore.Position out) 0
    (by simpa using h), List.getElem_map, List.get_eq_getElem]

lemma scoreAt_eq_get (out : List TeamScore) (k : Nat) (h : k < out.length) :
    scoreAt out k = (out.get ⟨k, h⟩).Score := by
  unfold scoreAt
  rw [List.getD_eq_getElem (List.map TeamScore.Score out) 0
    (by simpa using h), List.getElem_map, List.get_eq_getElem]

lemma sortTeams_positionAt_zero (l : List TeamScore)
    (h : 0 < (sortTeamsByScoreAndCalculatePositions l).length) :
    positionAt (sortTeamsByScoreAndCalculatePositions l) 0 = 1 := by
  cases hm : List.insertionSort teamLEP l with
  | nil =>
      rw [sortTeams_eq_nil l hm] at h
      simp at h
  | cons t rest =>
      rw [sortTeams_eq_cons l t rest hm, positionAt_cons_zero]

lemma sortTeams_positionAt_succ (l : List TeamScore) (k : Nat)
    (hk : k + 1 < (sortTeamsByScoreAndCalculatePositions l).length) :
    positionAt (sortTeamsByScoreAndCalculatePositions l) (k + 1) =
      if scoreAt (sortTeamsByScoreAndCalculatePositions l) (k + 1) <
          scoreAt (sortTeamsByScoreAndCalculatePositions l) k
      then k + 2
      else positionAt (sortTeamsByScoreAndCalculatePositions l) k := by
  cases hm : List.insertionSort teamLEP l with
  | nil =>
      rw [sortTeams_eq_nil l hm] at hk
      simp at hk
  | cons t rest =>
      rw [sortTeams_eq_cons l t rest hm] at hk ⊢
      cases k with
      | zero =>
          cases rest with
          | nil => simp [assignPositionsAux] at hk
          | cons u rest2 =>
              simp only [positionAt_cons_succ, scoreAt_cons_succ,
                positionAt_cons_zero, scoreAt_cons_zero,
                scoreAt_assignPositionsAux]
              rw [assignAux_positionAt_zero]
      | succ k2 =>
          have hk2 : k2 + 1 < rest.length := by
            simp only [List.length_cons, assignPositionsAux_length] at hk
            omega
          simp only [positionAt_cons_succ, scoreAt_cons_succ,
            scoreAt_assignPositionsAux]
          rw [assignAux_positionAt_succ rest 1 1 t.Score k2 hk2]
          split_ifs <;> omega

/-- C3 — In the ranked output, the first element has position 1; each
subsequent element's position equals its 1-based index exactly when its
score differs from the previous element's score and otherwise equals the
previous element's position; positions are non-decreasing along the
sequence; and any two elements with equal score have equal position. -/
theorem ranking_competition_positions (l : List TeamScore) :
    (∀ h0 : 0 < (sortTeamsByScoreAndCalculatePositions l).length,
      ((sortTeamsByScoreAndCalculatePositions l).get ⟨0, h0⟩).Position = 1) ∧
    (∀ (k : Nat) (hk : k + 1 < (sortTeamsByScoreAndCalculatePositions l).length),
      ((sortTeamsByScoreAndCalculatePositions l).get ⟨k + 1, hk⟩).Position =
        if ((sortTeamsByScoreAndCalculatePositions l).get ⟨k + 1, hk⟩).Score ≠
            ((sortTeamsByScoreAndCalculatePositions l).get
              ⟨k, Nat.lt_of_succ_lt hk⟩).Score
        then k + 2
        else ((sortTeamsByScoreAndCalculatePositions l).get
          ⟨k, Nat.lt_of_succ_lt hk⟩).Position) ∧
    (∀ (i j : Nat) (hi : i < (sortTeamsByScoreAndCalculatePositions l).length)
      (hj : j < (sortTeamsByScoreAndCalculatePositions l).length), i ≤ j →
      ((sortTeamsByScoreAndCalculatePositions l).get ⟨i, hi⟩).Position ≤
        ((sortTeamsByScoreAndCalculatePositions l).get ⟨j, hj⟩).Position) ∧
    (∀ (i j : Nat) (hi : i < (sortTeamsByScoreAndCalculatePositions l).length)
      (hj : j < (sortTeamsByScoreAndCalculatePositions l).length),
      ((sortTeamsByScoreAndCalculatePositions l).get ⟨i, hi⟩).Score =
        ((sortTeamsByScoreAndCalculatePositions l).get ⟨j, hj⟩).Score →
      ((sortTeamsByScoreAndCalculatePositions l).get ⟨i, hi⟩).Position =
        ((sortTeamsByScoreAndCalculatePositions l).get ⟨j, hj⟩).Position) := by
  haveI : IsTrans TeamScore posOrder := by
    refine ⟨fun a b c h1 h2 => ⟨h2.1.trans h1.1, h1.2.1.trans h2.2.1, ?_⟩⟩
    intro heq
    have hab : a.Score = b.Score := by
      have := h1.1
      have := h2.1
      omega
    have hbc : b.Score = c.Score := by omega
    rw [h1.2.2 hab, h2.2.2 hbc]
  have hpw : List.Pairwise posOrder (sortTeamsByScoreAndCalculatePositions l) :=
    List.chain'_iff_pairwise.mp (sortTeams_chain_posOrder l)
  have hpg := List.pairwise_iff_getElem.mp hpw
  refine ⟨?_, ?_, ?_, ?_⟩
  · intro h0
    rw [← positionAt_eq_get _ _ h0]
    exact sortTeams_positionAt_zero l h0
  · intro k hk
    have hk' : k < (sortTeamsByScoreAndCalculatePositions l).length :=
      Nat.lt_of_succ_lt hk
    have hadj : ((sortTeamsByScoreAndCalculatePositions l).get ⟨k + 1, hk⟩).Score ≤
        ((sortTeamsByScoreAndCalculatePositions l).get ⟨k, hk'⟩).Score :=
      (hpg k (k + 1) hk' hk (Nat.lt_succ_self k)).1
    rw [← positionAt_eq_get _ _ hk, ← positionAt_eq_get _ _ hk',
      ← scoreAt_eq_get _ _ hk, ← scoreAt_eq_get _ _ hk']
    rw [sortTeams_positionAt_succ l k hk]
    have hadj' : scoreAt (sortTeamsByScoreAndCalculatePositions l) (k + 1) ≤
        scoreAt (sortTeamsByScoreAndCalculatePositions l) k := by
      rw [scoreAt_eq_get _ _ hk, scoreAt_eq_get _ _ hk']
      exact hadj
    split_ifs <;> first | rfl | omega
  · intro i j hi hj hij
    rcases Nat.lt_or_ge i j with hlt | hge
    · exact (hpg i j hi hj hlt).2.1
    · have hji : i = j := le_antisymm hij hge
      subst hji
      exact le_refl _
  · intro i j hi hj heq
    rcases lt_trichotomy i j with hlt | heqij | hgt
    · exact (hpg i j hi hj hlt).2.2 heq
    · subst heqij
      rfl
    · exact ((hpg j i hj hi hgt).2.2 heq.symm).symm

/-- C3 witness: the ranked output of three concrete teams (two tied at
score 30) starts at position 1, and positions are non-decreasing between
indices 1 and 2. -/
theorem ranking_competition_positions_witness :
    ((sortTeamsByScoreAndCalculatePositions [exTeamA, exTeamB, exTeamC]).get
      ⟨0, by decide⟩).Position = 1 ∧
    ((sortTeamsByScoreAndCalculatePositions [exTeamA, exTeamB, exTeamC]).get
      ⟨1, by decide⟩).Position ≤
      ((sortTeamsByScoreAndCalculatePositions [exTeamA, exTeamB, exTeamC]).get
        ⟨2, by decide⟩).Position ∧
    ((sortTeamsByScoreAndCalculatePositions [exTeamA, exTeamB, exTeamC]).get
      ⟨0, by decide⟩).Position =
      ((sortTeamsByScoreAndCalculatePositions [exTeamA, exTeamB, exTeamC]).get
        ⟨1, by decide⟩).Position :=
  ⟨(ranking_competition_positions [exTeamA, exTeamB, exTeamC]).1 (by decide),
    (ranking_competition_positions [exTeamA, exTeamB, exTeamC]).2.2.1 1 2
      (by decide) (by decide) (by decide),
    (ranking_competition_positions [exTeamA, exTeamB, exTeamC]).2.2.2 0 1
      (by decide) (by decide) (by decide)⟩

lemma map_getD_eq_filterMap (f : ChallengeStatus → Option Nat)
    (l : List ChallengeStatus) (h : ∀ c ∈ l, (f c).isSome = true) :
    l.map (fun c => (f c).getD 0) = l.filterMap f := by
  induction l with
  | nil => rfl
  | cons c rest ih =>
      have hc := h c (List.mem_cons_self c rest)
      cases hf : f c with
      | none =>
          rw [hf] at hc
          simp at hc
      | some n =>
          simp only [List.map_cons, List.filterMap_cons, hf, Option.getD_some]
          rw [ih (fun x hx => h x (List.mem_cons_of_mem c hx))]

lemma createChallengeIdLookup_pos (keys : List String) (key : String) (n : Nat)
    (h : goMapFind (createChallengeIdLookup keys) key = some n) : 1 ≤ n := by
  unfold goMapFind at h
  cases hf : (createChallengeIdLookup keys).reverse.find? (fun p => p.1 == key) with
  | none =>
      rw [hf] at h
      simp at h
  | some p =>
      rw [hf] at h
      simp only [Option.map_some'] at h
      have h2 : p.2 = n := Option.some.inj h
      have hmem : p ∈ (createChallengeIdLookup keys).reverse :=
        List.mem_of_find?_eq_some hf
      rw [List.mem_reverse] at hmem
      unfold createChallengeIdLookup at hmem
      rw [List.mem_map] at hmem
      obtain ⟨q, _, hpq⟩ := hmem
      have h3 : p.2 = q.1 + 1 := by rw [← hpq]
      omega

/-- C4 counterexample: with a catalog containing only "scoreBoardChallenge",
the entry with key "unknownChallenge" is not excluded from the id list: the
code performs Go map indexing, which yields the zero value 0, so the encoder
receives [0] where the claimed exclusion would yield []. -/
theorem generateContinueCode_unknown_key_counterexample :
    GenerateContinueCodeIds (createChallengeIdLookup ["scoreBoardChallenge"])
        [⟨"unknownChallenge", "2024-01-01"⟩] = [0] ∧
    specRecognizedIds (createChallengeIdLookup ["scoreBoardChallenge"])
        [⟨"unknownChallenge", "2024-01-01"⟩] = [] ∧
    GenerateContinueCodeIds (createChallengeIdLookup ["scoreBoardChallenge"])
        [⟨"unknownChallenge", "2024-01-01"⟩] ≠
      specRecognizedIds (createChallengeIdLookup ["scoreBoardChallenge"])
        [⟨"unknownChallenge", "2024-01-01"⟩] := by
  exact ⟨by decide, by decide, by decide⟩

/-- C4 amended — The encoder receives one element per challenge entry: the
catalog id for a recognized key, the Go zero value 0 for an unknown key
(which is never a catalog id, those being ≥ 1); an unknown key does not
fail the encode, and when every key is recognized the encoder receives
exactly the recognized ids. -/
theorem generateContinueCode_ids (lookup : List (String × Nat))
    (challenges : List ChallengeStatus) :
    (GenerateContinueCodeIds lookup challenges).length = challenges.length ∧
    GenerateContinueCodeIds lookup challenges =
      challenges.map (fun c => (goMapFind lookup c.Key).getD 0) ∧
    ((∀ c ∈ challenges, (goMapFind lookup c.Key).isSome = true) →
      GenerateContinueCodeIds lookup challenges =
        specRecognizedIds lookup challenges) ∧
    (∀ (keys : List String) (key : String) (n : Nat),
      goMapFind (createChallengeIdLookup keys) key = some n → 1 ≤ n) := by
  refine ⟨by simp [GenerateContinueCodeIds], rfl, ?_, ?_⟩
  · intro h
    unfold GenerateContinueCodeIds specRecognizedIds goMapLookup
    exact map_getD_eq_filterMap _ _ h
  · intro keys key n h
    exact createChallengeIdLookup_pos keys key n h

/-- C4 amended witness: a two-entry catalog with one recognized and one
unknown key; all-recognized input reproduces the spec's id list. -/
theorem generateContinueCode_ids_witness :
    (GenerateContinueCodeIds (createChallengeIdLookup ["a", "b"])
        [⟨"b", "1"⟩, ⟨"a", "2"⟩]).length = 2 ∧
    GenerateContinueCodeIds (createChallengeIdLookup ["a", "b"])
        [⟨"b", "1"⟩, ⟨"a", "2"⟩] =
      specRecognizedIds (createChallengeIdLookup ["a", "b"])
        [⟨"b", "1"⟩, ⟨"a", "2"⟩] ∧
    GenerateContinueCodeIds (createChallengeIdLookup ["a", "b"])
        [⟨"b", "1"⟩, ⟨"a", "2"⟩] = [2, 1] :=
  ⟨(generateContinueCode_ids (createChallengeIdLookup ["a", "b"])
      [⟨"b", "1"⟩, ⟨"a", "2"⟩]).1,
   (generateContinueCode_ids (createChallengeIdLookup ["a", "b"])
      [⟨"b", "1"⟩, ⟨"a", "2"⟩]).2.2.1 (by decide),
   by decide⟩

/-- C5 — The comparator classifies by set membership of solved keys:
identical key sets give NoOp; a last-known key missing from the live list
gives ApplyCode; live strictly containing last-known gives UpdateCache; and
two lists of equal length with different key sets are never NoOp. -/
theorem compareChallengeStates_classification
    (current last : List ChallengeStatus) :
    (((∀ k ∈ keysOf current, k ∈ keysOf last) ∧
        (∀ k ∈ keysOf last, k ∈ keysOf current)) →
      CompareChallengeStates current last = ProgressDifference.NoOp) ∧
    ((∃ k ∈ keysOf last, k ∉ keysOf current) →
      CompareChallengeStates current last = ProgressDifference.ApplyCode) ∧
    ((∀ k ∈ keysOf last, k ∈ keysOf current) →
      (∃ k ∈ keysOf current, k ∉ keysOf last) →
      CompareChallengeStates current last = ProgressDifference.UpdateCache) ∧
    (current.length = last.length →
      ¬ ((∀ k ∈ keysOf current, k ∈ keysOf last) ∧
          (∀ k ∈ keysOf last, k ∈ keysOf current)) →
      CompareChallengeStates current last ≠ ProgressDifference.NoOp) := by
  refine ⟨?_, ?_, ?_, ?_⟩
  · intro h
    unfold CompareChallengeStates
    rw [if_pos h]
  · rintro ⟨k, hkl, hkc⟩
    unfold CompareChallengeStates
    split_ifs with h1 h2
    · exact absurd (h1.2 k hkl) hkc
    · rfl
    · exact absurd ⟨k, hkl, hkc⟩ h2
  · rintro hsub ⟨k, hkc, hkl⟩
    unfold CompareChallengeStates
    split_ifs with h1 h2
    · exact absurd (h1.1 k hkc) hkl
    · obtain ⟨k2, hk2l, hk2c⟩ := h2
      exact absurd (hsub k2 hk2l) hk2c
    · rfl
  · intro _ hne
    unfold CompareChallengeStates
    rw [if_neg hne]
    split_ifs <;> simp

/-- C5 witness: the spec's three concrete classification examples, plus two
equal-length lists with different keys that are not NoOp. -/
theorem compareChallengeStates_classification_witness :
    CompareChallengeStates [⟨"A", "1"⟩, ⟨"B", "2"⟩] [⟨"A", "1"⟩, ⟨"B", "2"⟩] =
      ProgressDifference.NoOp ∧
    CompareChallengeStates [⟨"A", "1"⟩] [⟨"A", "1"⟩, ⟨"B", "2"⟩] =
      ProgressDifference.ApplyCode ∧
    CompareChallengeStates [⟨"A", "1"⟩, ⟨"B", "2"⟩] [⟨"A", "1"⟩] =
      ProgressDifference.UpdateCache ∧
    CompareChallengeStates [⟨"A", "1"⟩] [⟨"B", "2"⟩] ≠
      ProgressDifference.NoOp :=
  ⟨(compareChallengeStates_classification _ _).1 (by decide),
   (compareChallengeStates_classification _ _).2.1 (by decide),
   (compareChallengeStates_classification _ _).2.2.1 (by decide) (by decide),
   (compareChallengeStates_classification _ _).2.2.2 (by decide) (by decide)⟩

/-- C8 counterexample: a failing deployment List call makes the scheduler
cycle panic — the failure is fatal, it is not dropped-and-retried. -/
theorem scheduler_list_failure_counterexample :
    createProgressUpdateJobsCycle (Except.error "connection refused") =
      SchedulerCycleOutcome.panicked ∧
    createProgressUpdateJobsCycle (Except.error "connection refused") ≠
      SchedulerCycleOutcome.produced [] := by
  exact ⟨rfl, by decide⟩

/-- C8 amended — When the deployment List call fails, the scheduler cycle
panics (fatal to the process) and produces no job; when it succeeds, it
produces exactly one job per instance with ready-replica count 1, carrying
the team label and last-known progress. -/
theorem scheduler_cycle_behaviour (e : String)
    (shops : List WatchdogDeployment) (j : ProgressUpdateJob) :
    createProgressUpdateJobsCycle (Except.error e) =
      SchedulerCycleOutcome.panicked ∧
    createProgressUpdateJobsCycle (Except.ok shops) ≠
      SchedulerCycleOutcome.panicked ∧
    createProgressUpdateJobsCycle (Except.ok shops) =
      SchedulerCycleOutcome.produced
        (shops.filterMap (fun shop =>
          if shop.readyReplicas = 1 then
            some { Team := shop.team,
                   LastChallengeProgress := annStatusList shop.challengesAnn }
          else none)) ∧
    (j ∈ shops.filterMap (fun shop =>
        if shop.readyReplicas = 1 then
          some { Team := shop.team,
                 LastChallengeProgress := annStatusList shop.challengesAnn }
        else none) ↔
      ∃ shop ∈ shops, shop.readyReplicas = 1 ∧
        j = { Team := shop.team,
              LastChallengeProgress := annStatusList shop.challengesAnn }) := by
  refine ⟨rfl, by simp [createProgressUpdateJobsCycle], rfl, ?_⟩
  rw [List.mem_filterMap]
  constructor
  · rintro ⟨shop, hmem, hf⟩
    by_cases hr : shop.readyReplicas = 1
    · rw [if_pos hr] at hf
      exact ⟨shop, hmem, hr, (Option.some.inj hf).symm⟩
    · rw [if_neg hr] at hf
      cases hf
  · rintro ⟨shop, hmem, hr, hj⟩
    refine ⟨shop, hmem, ?_⟩
    rw [if_pos hr, hj]

/-- C8 amended witness: a failing List call panics; a successful List over
one ready and one unready instance produces exactly the ready team's job. -/
theorem scheduler_cycle_behaviour_witness :
    createProgressUpdateJobsCycle (Except.error "boom") =
      SchedulerCycleOutcome.panicked ∧
    createProgressUpdateJobsCycle (Except.ok
        [{ team := "t4", challengesAnn := ChallengeStatusAnn.parsed [],
           continueCodeFindIt := "", continueCodeFixIt := "",
           readyReplicas := 1 },
         { team := "t5", challengesAnn := ChallengeStatusAnn.absent,
           continueCodeFindIt := "", continueCodeFixIt := "",
           readyReplicas := 0 }]) =
      SchedulerCycleOutcome.produced
        [{ Team := "t4", LastChallengeProgress := [] }] :=
  ⟨(scheduler_cycle_behaviour "boom" [] ⟨"t", []⟩).1,
   ((scheduler_cycle_behaviour "boom"
      [{ team := "t4", challengesAnn := ChallengeStatusAnn.parsed [],
         continueCodeFindIt := "", continueCodeFixIt := "",
         readyReplicas := 1 },
       { team := "t5", challengesAnn := ChallengeStatusAnn.absent,
         continueCodeFindIt := "", continueCodeFixIt := "",
         readyReplicas := 0 }] ⟨"t", []⟩).2.2.1).trans (by decide)⟩

lemma waitLoop_returns_none (states : Nat → ScoreSnapshot)
    (lastSeenUpdate : Int)
    (hall : ∀ k, (states k).lastUpdate ≤ lastSeenUpdate) :
    ∀ (events : List WaitEvent) (k : Nat),
      (WaitEvent.timeout ∈ events ∨ WaitEvent.canceled ∈ events) →
      waitLoop states lastSeenUpdate k events = WaitOutcome.returned none := by
  intro events
  induction events with
  | nil =>
      intro k h
      rcases h with h | h <;> simp at h
  | cons e rest ih =>
      intro k h
      cases e with
      | tick =>
          have hrest : WaitEvent.timeout ∈ rest ∨ WaitEvent.canceled ∈ rest := by
            rcases h with h | h <;> rcases List.mem_cons.mp h with h' | h'
            · exact absurd h' (by decide)
            · exact Or.inl h'
            · exact absurd h' (by decide)
            · exact Or.inr h'
          have hc : ¬ (states k).lastUpdate > lastSeenUpdate := by
            have := hall k
            omega
          simp only [waitLoop]
          rw [if_neg hc]
          exact ih (k + 1) hrest
      | timeout => rfl
      | canceled => rfl

lemma waitLoop_none_needs_stop (states : Nat → ScoreSnapshot)
    (lastSeenUpdate : Int) :
    ∀ (events : List WaitEvent) (k : Nat),
      waitLoop states lastSeenUpdate k events = WaitOutcome.returned none →
      WaitEvent.timeout ∈ events ∨ WaitEvent.canceled ∈ events := by
  intro events
  induction events with
  | nil =>
      intro k h
      simp [waitLoop] at h
  | cons e rest ih =>
      intro k h
      cases e with
      | tick =>
          simp only [waitLoop] at h
          split_ifs at h with hc
          · simp at h
          · rcases ih (k + 1) h with h' | h'
            · exact Or.inl (List.mem_cons_of_mem _ h')
            · exact Or.inr (List.mem_cons_of_mem _ h')
      | timeout => exact Or.inl (List.mem_cons_self _ _)
      | canceled => exact Or.inr (List.mem_cons_self _ _)

/-- C9 — A long-poll read whose watermark is older than the cache's current
update time returns immediately (consuming no select events) with the
current ranked board; if no snapshot ever exceeds the watermark, the read
returns the explicit no-update signal (`none`) exactly when the timeout
timer (which the runtime fires only once the 25-second ceiling elapses) or
the caller's cancellation fires — and it can only return the no-update
signal through one of those two events, never from a poll tick, so the
signal neither precedes the ceiling nor requires waiting forever. -/
theorem waitForUpdates_longpoll (states : Nat → ScoreSnapshot)
    (lastSeenUpdate : Int) (events : List WaitEvent) :
    ((states 0).lastUpdate > lastSeenUpdate →
      WaitForUpdatesNewerThan states lastSeenUpdate events =
        WaitOutcome.returned (some (states 0).scoresSorted)) ∧
    ((∀ k, (states k).lastUpdate ≤ lastSeenUpdate) →
      (WaitEvent.timeout ∈ events ∨ WaitEvent.canceled ∈ events) →
      WaitForUpdatesNewerThan states lastSeenUpdate events =
        WaitOutcome.returned none) ∧
    (WaitForUpdatesNewerThan states lastSeenUpdate events =
        WaitOutcome.returned none →
      WaitEvent.timeout ∈ events ∨ WaitEvent.canceled ∈ events) := by
  refine ⟨?_, ?_, ?_⟩
  · intro h
    unfold WaitForUpdatesNewerThan
    rw [if_pos h]
  · intro hall hstop
    unfold WaitForUpdatesNewerThan
    rw [if_neg (by have := hall 0; omega)]
    exact waitLoop_returns_none states lastSeenUpdate hall events 1 hstop
  · intro h
    unfold WaitForUpdatesNewerThan at h
    split_ifs at h with hc
    · simp at h
    · exact waitLoop_none_needs_stop states lastSeenUpdate events 1 h

/-- C9 witness: a cache already newer than the watermark returns the board
at once; a cache that never advances past the watermark returns the
no-update signal on the schedule [tick, timeout]. -/
theorem waitForUpdates_longpoll_witness :
    WaitForUpdatesNewerThan (fun _ => ⟨5, [exTeamA]⟩) 3
        [WaitEvent.tick] = WaitOutcome.returned (some [exTeamA]) ∧
    WaitForUpdatesNewerThan (fun _ => ⟨5, [exTeamA]⟩) 10
        [WaitEvent.tick, WaitEvent.timeout] = WaitOutcome.returned none :=
  ⟨(waitForUpdates_longpoll (fun _ => ⟨5, [exTeamA]⟩) 3 [WaitEvent.tick]).1
      (by decide),
   (waitForUpdates_longpoll (fun _ => ⟨5, [exTeamA]⟩) 10
      [WaitEvent.tick, WaitEvent.timeout]).2.1
      (fun k => by decide) (Or.inl (by decide))⟩

lemma webhookHandler_regular (d : WatchdogDeployment)
    (challenge issuedOn : String) (fetch? : Option ChallengeProgressWithCodes)
    (l : List ChallengeStatus)
    (hann : d.challengesAnn = ChallengeStatusAnn.parsed l)
    (hfind : ¬ goHasPrefix challenge "find-it-")
    (hfix : ¬ goHasPrefix challenge "fix-it-") :
    webhookHandler (some d) challenge issuedOn fetch? =
      if l.any (fun s => s.Key == challenge) then
        { status := 200, persisted := none }
      else
        { status := 200,
          persisted := some
            { challenges := sortChallengeStatuses (l ++ [⟨challenge, issuedOn⟩]),
              continueCodeFindIt := d.continueCodeFindIt,
              continueCodeFixIt := d.continueCodeFixIt } } := by
  simp only [webhookHandler, hann, annStatusList]
  rw [if_neg hfind, if_neg hfix]

lemma fixIt_not_findIt (c : String) (h : goHasPrefix c "fix-it-") :
    ¬ goHasPrefix c "find-it-" := by
  intro h2
  unfold goHasPrefix at h h2
  have hfixlen : ("fix-it-".toList).length = 7 := by decide
  have hfindlen : ("find-it-".toList).length = 8 := by decide
  rw [hfixlen] at h
  rw [hfindlen] at h2
  have h77 : c.toList.take 7 = ("find-it-".toList).take 7 := by
    rw [← h2, List.take_take]
    norm_num
  rw [h] at h77
  exact absurd h77 (by decide)

/-- C6 counterexample: a webhook for the bonus key "find-it-x" whose key is
absent from the (empty) persisted list succeeds with HTTP 200 but persists
the list unchanged — no entry with that key is appended, so append-if-absent
does not hold for every webhook request. -/
theorem webhook_bonus_key_not_appended :
    (webhookHandler
        (some { team := "t1", challengesAnn := ChallengeStatusAnn.parsed [],
                continueCodeFindIt := "", continueCodeFixIt := "",
                readyReplicas := 1 })
        "find-it-x" "2024-01-01"
        (some { Challenges := [], ContinueCodeFindIt := "codeF",
                ContinueCodeFixIt := "" })).status = 200 ∧
    (webhookHandler
        (some { team := "t1", challengesAnn := ChallengeStatusAnn.parsed [],
                continueCodeFindIt := "", continueCodeFixIt := "",
                readyReplicas := 1 })
        "find-it-x" "2024-01-01"
        (some { Challenges := [], ContinueCodeFindIt := "codeF",
                ContinueCodeFixIt := "" })).persisted =
      some { challenges := [], continueCodeFindIt := "codeF",
             continueCodeFixIt := "" } := by
  exact ⟨by decide, by decide⟩

/-- C6 amended — For every webhook request whose challenge key is not a
find-it- or fix-it- bonus key, the handler's effect on the persisted
solved-challenge list is append-if-absent: an already-recorded key leaves
the persisted state untouched and still answers HTTP 200; an absent key
persists, with HTTP 200, a permutation of the old list plus exactly one new
entry with that key and timestamp (the list is re-sorted by solved-at
timestamp); and handling the same webhook twice leaves the same deployment
state as handling it once. -/
theorem webhook_regular_append_if_absent (d : WatchdogDeployment)
    (challenge issuedOn : String) (fetch? : Option ChallengeProgressWithCodes)
    (l : List ChallengeStatus)
    (hann : d.challengesAnn = ChallengeStatusAnn.parsed l)
    (hfind : ¬ goHasPrefix challenge "find-it-")
    (hfix : ¬ goHasPrefix challenge "fix-it-") :
    ((∃ c ∈ l, c.Key = challenge) →
      webhookHandler (some d) challenge issuedOn fetch? =
        { status := 200, persisted := none }) ∧
    ((∀ c ∈ l, c.Key ≠ challenge) →
      webhookHandler (some d) challenge issuedOn fetch? =
        { status := 200,
          persisted := some
            { challenges := sortChallengeStatuses (l ++ [⟨challenge, issuedOn⟩]),
              continueCodeFindIt := d.continueCodeFindIt,
              continueCodeFixIt := d.continueCodeFixIt } } ∧
      (sortChallengeStatuses (l ++ [⟨challenge, issuedOn⟩])).Perm
        (l ++ [⟨challenge, issuedOn⟩])) ∧
    annAfterWebhook (annAfterWebhook d challenge issuedOn fetch?) challenge
        issuedOn fetch? =
      annAfterWebhook d challenge issuedOn fetch? := by
  have hreg := webhookHandler_regular d challenge issuedOn fetch? l hann hfind hfix
  refine ⟨?_, ?_, ?_⟩
  · rintro ⟨c, hc, hk⟩
    rw [hreg, if_pos]
    exact List.any_eq_true.mpr ⟨c, hc, by simp [hk]⟩
  · intro habs
    have hany : l.any (fun s => s.Key == challenge) = false := by
      rw [List.any_eq_false]
      intro c hc
      simp [habs c hc]
    rw [hreg, if_neg (by simp [hany])]
    exact ⟨rfl, List.perm_insertionSort _ _⟩
  · by_cases hmem : l.any (fun s => s.Key == challenge) = true
    · have hfirst : annAfterWebhook d challenge issuedOn fetch? = d := by
        unfold annAfterWebhook
        rw [hreg, if_pos hmem]
      rw [hfirst]
      exact hfirst
    · have hhandler : webhookHandler (some d) challenge issuedOn fetch? =
          { status := 200,
            persisted := some
              { challenges := sortChallengeStatuses (l ++ [⟨challenge, issuedOn⟩]),
                continueCodeFindIt := d.continueCodeFindIt,
                continueCodeFixIt := d.continueCodeFixIt } } := by
        rw [hreg, if_neg hmem]
      have hfirst : annAfterWebhook d challenge issuedOn fetch? = { d with challengesAnn := ChallengeStatusAnn.parsed (sortChallengeStatuses (l ++ [⟨challenge, issuedOn⟩])) } := by
        unfold annAfterWebhook
        rw [hhandler]
      rw [hfirst]
      have hmem2 : (sortChallengeStatuses (l ++ [⟨challenge, issuedOn⟩])).any
          (fun s => s.Key == challenge) = true := by
        rw [List.any_eq_true]
        refine ⟨⟨challenge, issuedOn⟩, ?_, by simp⟩
        unfold sortChallengeStatuses
        rw [(List.perm_insertionSort solvedAtLE _).mem_iff]
        simp
      have hreg2 := webhookHandler_regular { d with challengesAnn := ChallengeStatusAnn.parsed (sortChallengeStatuses (l ++ [⟨challenge, issuedOn⟩])) } challenge issuedOn fetch? (sortChallengeStatuses (l ++ [⟨challenge, issuedOn⟩])) rfl hfind hfix
      unfold annAfterWebhook
      rw [hreg2, if_pos hmem2]

/-- C6 amended witness: a concrete deployment with one recorded challenge;
the absent key "scoreBoard" is appended (modulo the timestamp sort) with
HTTP 200, and a second identical webhook is a no-op. -/
theorem webhook_regular_append_if_absent_witness :
    (webhookHandler
        (some { team := "t2",
                challengesAnn := ChallengeStatusAnn.parsed [⟨"nullByte", "1"⟩],
                continueCodeFindIt := "cf", continueCodeFixIt := "cx",
                readyReplicas := 1 })
        "scoreBoard" "2" none =
      { status := 200,
        persisted := some
          { challenges := sortChallengeStatuses
              ([⟨"nullByte", "1"⟩] ++ [⟨"scoreBoard", "2"⟩]),
            continueCodeFindIt := "cf", continueCodeFixIt := "cx" } } ∧
      (sortChallengeStatuses
          ([⟨"nullByte", "1"⟩] ++ [⟨"scoreBoard", "2"⟩])).Perm
        ([⟨"nullByte", "1"⟩] ++ [⟨"scoreBoard", "2"⟩])) ∧
    annAfterWebhook
        (annAfterWebhook
          { team := "t2",
            challengesAnn := ChallengeStatusAnn.parsed [⟨"nullByte", "1"⟩],
            continueCodeFindIt := "cf", continueCodeFixIt := "cx",
            readyReplicas := 1 } "scoreBoard" "2" none)
        "scoreBoard" "2" none =
      annAfterWebhook
        { team := "t2",
          challengesAnn := ChallengeStatusAnn.parsed [⟨"nullByte", "1"⟩],
          continueCodeFindIt := "cf", continueCodeFixIt := "cx",
          readyReplicas := 1 } "scoreBoard" "2" none :=
  ⟨(webhook_regular_append_if_absent _ "scoreBoard" "2" none [⟨"nullByte", "1"⟩]
      rfl (by decide) (by decide)).2.1 (by decide),
   (webhook_regular_append_if_absent _ "scoreBoard" "2" none [⟨"nullByte", "1"⟩]
      rfl (by decide) (by decide)).2.2⟩

/-- C10 — For a webhook whose challenge key starts with "find-it-" (or
"fix-it-"), the handler never appends the challenge: when the live-progress
fetch succeeds it answers HTTP 200 and re-persists the previously persisted
challenge list unchanged, replacing only the matching category's continue
code with the freshly fetched one and keeping the other category's
previously persisted code; when the fetch fails it answers HTTP 500 and
persists nothing.  The two prefixes are mutually exclusive and the find-it
branch is checked first. -/
theorem webhook_bonus_code_update (d : WatchdogDeployment)
    (challenge issuedOn : String) (p : ChallengeProgressWithCodes)
    (l : List ChallengeStatus)
    (hann : d.challengesAnn = ChallengeStatusAnn.parsed l) :
    (goHasPrefix challenge "find-it-" →
      webhookHandler (some d) challenge issuedOn (some p) =
        { status := 200,
          persisted := some
            { challenges := l,
              continueCodeFindIt := p.ContinueCodeFindIt,
              continueCodeFixIt := d.continueCodeFixIt } } ∧
      webhookHandler (some d) challenge issuedOn none =
        { status := 500, persisted := none }) ∧
    (goHasPrefix challenge "fix-it-" →
      webhookHandler (some d) challenge issuedOn (some p) =
        { status := 200,
          persisted := some
            { challenges := l,
              continueCodeFindIt := d.continueCodeFindIt,
              continueCodeFixIt := p.ContinueCodeFixIt } } ∧
      webhookHandler (some d) challenge issuedOn none =
        { status := 500, persisted := none }) := by
  constructor
  · intro hfind
    constructor
    · simp only [webhookHandler, hann, annStatusList]
      rw [if_pos hfind]
    · simp only [webhookHandler]
      rw [if_pos hfind]
  · intro hfix
    have hfind := fixIt_not_findIt challenge hfix
    constructor
    · simp only [webhookHandler, hann, annStatusList]
      rw [if_neg hfind, if_pos hfix]
    · simp only [webhookHandler]
      rw [if_neg hfind, if_pos hfix]

/-- C10 witness: concrete find-it and fix-it webhooks against a deployment
with one recorded challenge; the challenge list is re-persisted unchanged
and only the matching category's code is refreshed. -/
theorem webhook_bonus_code_update_witness :
    webhookHandler
        (some { team := "t3",
                challengesAnn := ChallengeStatusAnn.parsed [⟨"nullByte", "1"⟩],
                continueCodeFindIt := "oldF", continueCodeFixIt := "oldX",
                readyReplicas := 1 })
        "find-it-a" "9"
        (some { Challenges := [], ContinueCodeFindIt := "newF",
                ContinueCodeFixIt := "newX" }) =
      { status := 200,
        persisted := some
          { challenges := [⟨"nullByte", "1"⟩],
            continueCodeFindIt := "newF", continueCodeFixIt := "oldX" } } ∧
    webhookHandler
        (some { team := "t3",
                challengesAnn := ChallengeStatusAnn.parsed [⟨"nullByte", "1"⟩],
                continueCodeFindIt := "oldF", continueCodeFixIt := "oldX",
                readyReplicas := 1 })
        "fix-it-b" "9"
        (some { Challenges := [], ContinueCodeFindIt := "newF",
                ContinueCodeFixIt := "newX" }) =
      { status := 200,
        persisted := some
          { challenges := [⟨"nullByte", "1"⟩],
            continueCodeFindIt := "oldF", continueCodeFixIt := "newX" } } :=
  ⟨((webhook_bonus_code_update _ "find-it-a" "9"
      { Challenges := [], ContinueCodeFindIt := "newF",
        ContinueCodeFixIt := "newX" } [⟨"nullByte", "1"⟩] rfl).1
      (by decide)).1,
   ((webhook_bonus_code_update _ "fix-it-b" "9"
      { Challenges := [], ContinueCodeFindIt := "newF",
        ContinueCodeFixIt := "newX" } [⟨"nullByte", "1"⟩] rfl).2
      (by decide)).1⟩

end MultiJuicer
